import Mathlib

/-!
Shallow embedding of `opampnoise/opampnoise.py`, an opamp-circuit noise
calculator.  Python floats are modelled as real numbers; `np.sqrt` is
`Real.sqrt`; `np.pi` is `Real.pi`.  A Python call that raises
(`ZeroDivisionError` on division by exactly zero, `TypeError` on
arithmetic with `None`) is modelled as `none`; a normal return is `some`.
The optional `filter_res` / `filter_cap` arguments are `Option ℝ`
(`none` is Python `None`), and Python truthiness of a float (falsy iff
equal to `0.0`) is spelled out at the one place the source uses it.
Print statements are side effects with no influence on return values and
are not modelled.
-/

namespace Opampnoise

/-- `inverting_opamp_gain(feedback_res, g_res)`: returns
`feedback_res / g_res`; Python raises `ZeroDivisionError` when
`g_res == 0`. -/
noncomputable def inverting_opamp_gain (feedback_res g_res : ℝ) : Option ℝ :=
  if g_res = 0 then none else some (feedback_res / g_res)

/-- `parallel_res(res_one, res_two)`: returns
`(res_one * res_two) / (res_one + res_two)`; raises when the sum is 0. -/
noncomputable def parallel_res (res_one res_two : ℝ) : Option ℝ :=
  if res_one + res_two = 0 then none
  else some ((res_one * res_two) / (res_one + res_two))

/-- `resistor_thermal_noise(res)`: Johnson-Nyquist noise
`np.sqrt(4 * k * temp * res)` with the source's local constants
`k = 1.38e-23` and `temp = 289`. -/
noncomputable def resistor_thermal_noise (res : ℝ) : ℝ :=
  let k : ℝ := 1.38e-23
  let temp : ℝ := 289
  Real.sqrt (4 * k * temp * res)

/-- `noise_gain(feedback_res, res_g)`: returns `1 + feedback_res / res_g`;
raises when `res_g == 0`. -/
noncomputable def noise_gain (feedback_res res_g : ℝ) : Option ℝ :=
  if res_g = 0 then none else some (1 + feedback_res / res_g)

/-- `opamp_circuit_current_noise(feedback_res, g_res, i_n)`: the opamp
current noise through the equivalent feedback resistance. -/
noncomputable def opamp_circuit_current_noise
    (feedback_res g_res opamp_input_current_noise : ℝ) : Option ℝ :=
  match parallel_res feedback_res g_res with
  | none => none
  | some req => some (req * opamp_input_current_noise)

/-- `opamp_broadband_noise(opamp_GBW, noise_gain, filter_order)`:
returns `filter_order * (opamp_GBW / noise_gain)`; the Python default
for `filter_order` is `1.57` and every call site in the source uses it.
Raises when `noise_gain == 0`. -/
noncomputable def opamp_broadband_noise (opamp_GBW ng filter_order : ℝ) : Option ℝ :=
  if ng = 0 then none else some (filter_order * (opamp_GBW / ng))

/-- `total_input_noise_rms(v_n, i_n, feedback_res, g_res, opamp_GBW,
filter_res=None, filter_cap=None)`.  Mirrors the source line by line:
the quadrature sum of voltage, current and resistor noise densities is
scaled by the square root of a bandwidth; the no-filter branch is taken
when `not (filter_res or filter_cap)` holds, i.e. when each optional is
`None` or `0.0`; otherwise `rc_freq = 1/(2*pi*filter_res*filter_cap)` is
computed (a `TypeError` if an operand is `None`, `ZeroDivisionError` if
the product is zero) and compared against the broadband frequency. -/
noncomputable def total_input_noise_rms
    (opamp_input_voltage_noise opamp_input_current_noise : ℝ)
    (feedback_res g_res opamp_GBW : ℝ)
    (filter_res filter_cap : Option ℝ) : Option ℝ :=
  match parallel_res feedback_res g_res with
  | none => none
  | some req =>
    let current_noise := req * opamp_input_current_noise
    let resistors_voltage_noise := resistor_thermal_noise req
    match noise_gain feedback_res g_res with
    | none => none
    | some opamp_noise_gain =>
      match opamp_broadband_noise opamp_GBW opamp_noise_gain 1.57 with
      | none => none
      | some broadband_noise =>
        if (filter_res = none ∨ filter_res = some 0)
            ∧ (filter_cap = none ∨ filter_cap = some 0) then
          some (Real.sqrt (opamp_input_voltage_noise ^ 2 + current_noise ^ 2
              + resistors_voltage_noise ^ 2) * Real.sqrt broadband_noise)
        else
          match filter_res, filter_cap with
          | some fr, some fc =>
            if 2 * Real.pi * fr * fc = 0 then none
            else
              let rc_freq := 1 / (2 * Real.pi * fr * fc)
              if rc_freq > broadband_noise then
                some (Real.sqrt (opamp_input_voltage_noise ^ 2 + current_noise ^ 2
                    + resistors_voltage_noise ^ 2) * Real.sqrt broadband_noise)
              else
                some (Real.sqrt (opamp_input_voltage_noise ^ 2 + current_noise ^ 2
                    + resistors_voltage_noise ^ 2) * Real.sqrt (1.57 * rc_freq))
          | _, _ => none

/-- `total_output_noise_rms(input_voltage_noise, opamp_gain)`. -/
noncomputable def total_output_noise_rms (input_voltage_noise opamp_gain : ℝ) : ℝ :=
  input_voltage_noise * opamp_gain

/-- `resistor_or_opamp_noise_dominant(feedback_res, g_res, v_n)`:
`False` when `3 * resistor_noise > v_n`, `True` when
`v_n > 3 * resistor_noise`, `False` in the remaining (boundary) case. -/
noncomputable def resistor_or_opamp_noise_dominant
    (feedback_res g_res opamp_input_voltage_noise : ℝ) : Option Bool :=
  match parallel_res feedback_res g_res with
  | none => none
  | some req =>
    let resistors_voltage_noise := resistor_thermal_noise req
    if 3 * resistors_voltage_noise > opamp_input_voltage_noise then some false
    else if opamp_input_voltage_noise > 3 * resistors_voltage_noise then some true
    else some false

/- Helper lemmas about the embedded operations. -/

lemma parallel_res_of_sum_ne (r1 r2 : ℝ) (h : r1 + r2 ≠ 0) :
    parallel_res r1 r2 = some ((r1 * r2) / (r1 + r2)) := by
  simp [parallel_res, h]

lemma noise_gain_of_ne (rf rg : ℝ) (h : rg ≠ 0) :
    noise_gain rf rg = some (1 + rf / rg) := by
  simp [noise_gain, h]

lemma opamp_broadband_noise_of_ne (g ng fo : ℝ) (h : ng ≠ 0) :
    opamp_broadband_noise g ng fo = some (fo * (g / ng)) := by
  simp [opamp_broadband_noise, h]

lemma resistor_thermal_noise_def (r : ℝ) :
    resistor_thermal_noise r = Real.sqrt (4 * (1.38e-23) * 289 * r) := rfl

/-- Full unfolding of `total_input_noise_rms` when the two signal-path
resistors are positive, so that none of the preliminary computations
raises. -/
lemma total_input_noise_rms_eq (v i rf rg gbw : ℝ) (fr fc : Option ℝ)
    (hrf : 0 < rf) (hrg : 0 < rg) :
    total_input_noise_rms v i rf rg gbw fr fc =
      (if (fr = none ∨ fr = some 0) ∧ (fc = none ∨ fc = some 0) then
        some (Real.sqrt (v ^ 2 + (rf * rg / (rf + rg) * i) ^ 2
            + resistor_thermal_noise (rf * rg / (rf + rg)) ^ 2)
          * Real.sqrt (1.57 * (gbw / (1 + rf / rg))))
      else
        match fr, fc with
        | some r, some c =>
          if 2 * Real.pi * r * c = 0 then none
          else if 1 / (2 * Real.pi * r * c) > 1.57 * (gbw / (1 + rf / rg)) then
            some (Real.sqrt (v ^ 2 + (rf * rg / (rf + rg) * i) ^ 2
                + resistor_thermal_noise (rf * rg / (rf + rg)) ^ 2)
              * Real.sqrt (1.57 * (gbw / (1 + rf / rg))))
          else
            some (Real.sqrt (v ^ 2 + (rf * rg / (rf + rg) * i) ^ 2
                + resistor_thermal_noise (rf * rg / (rf + rg)) ^ 2)
              * Real.sqrt (1.57 * (1 / (2 * Real.pi * r * c))))
        | _, _ => none) := by
  have hsum : rf + rg ≠ 0 := by positivity
  have hrg' : rg ≠ 0 := ne_of_gt hrg
  have hng : (1 : ℝ) + rf / rg ≠ 0 := by positivity
  simp only [total_input_noise_rms, parallel_res_of_sum_ne rf rg hsum,
    noise_gain_of_ne rf rg hrg', opamp_broadband_noise_of_ne gbw _ 1.57 hng]

/-- Claim C6: `inverting_opamp_gain(feedback_res, g_res)` returns
`feedback_res / g_res` when `g_res` is non-zero and fails (division by
zero) when `g_res = 0`. -/
theorem claim6_inverting_gain (feedback_res g_res : ℝ) :
    (g_res ≠ 0 →
      inverting_opamp_gain feedback_res g_res = some (feedback_res / g_res))
    ∧ (g_res = 0 → inverting_opamp_gain feedback_res g_res = none) := by
  constructor
  · intro h
    simp [inverting_opamp_gain, h]
  · intro h
    simp [inverting_opamp_gain, h]

theorem claim6_witness :
    inverting_opamp_gain 6 2 = some 3 ∧ inverting_opamp_gain 6 0 = none := by
  constructor
  · rw [(claim6_inverting_gain 6 2).1 (by norm_num)]
    norm_num
  · exact (claim6_inverting_gain 6 0).2 rfl

/-- Claim C8: for positive resistances the noise gain is the inverting
gain plus one, namely `1 + Rf/Rg`. -/
theorem claim8_noise_gain_rel (rf rg : ℝ) (hrf : 0 < rf) (hrg : 0 < rg) :
    ∃ g : ℝ, inverting_opamp_gain rf rg = some g
      ∧ noise_gain rf rg = some (g + 1) ∧ g + 1 = 1 + rf / rg := by
  refine ⟨rf / rg, ?_, ?_, by ring⟩
  · simp [inverting_opamp_gain, ne_of_gt hrg]
  · rw [noise_gain_of_ne rf rg (ne_of_gt hrg)]
    congr 1
    ring

theorem claim8_witness :
    ∃ g : ℝ, inverting_opamp_gain 4 2 = some g
      ∧ noise_gain 4 2 = some (g + 1) ∧ g + 1 = 1 + 4 / 2 :=
  claim8_noise_gain_rel 4 2 (by norm_num) (by norm_num)

/-- Claim C9: for positive resistances, `parallel_res(r1, r2)` succeeds
and its value is at most `min r1 r2`. -/
theorem claim9_parallel_le_min (r1 r2 : ℝ) (h1 : 0 < r1) (h2 : 0 < r2) :
    ∃ p : ℝ, parallel_res r1 r2 = some p ∧ p ≤ min r1 r2 := by
  refine ⟨(r1 * r2) / (r1 + r2), parallel_res_of_sum_ne r1 r2 (by positivity), ?_⟩
  rw [le_min_iff]
  constructor
  · rw [div_le_iff₀ (by positivity)]
    nlinarith
  · rw [div_le_iff₀ (by positivity)]
    nlinarith

theorem claim9_witness :
    ∃ p : ℝ, parallel_res 100 400 = some p ∧ p ≤ min 100 400 :=
  claim9_parallel_le_min 100 400 (by norm_num) (by norm_num)

/-- Claim C4: for positive `Rf`, `Rg`, the dominance classifier answers
`some true` exactly when the opamp voltage noise exceeds three times the
thermal noise of the parallel resistance, and answers `some false` at
the exact 3x boundary. -/
theorem claim4_dominance (rf rg v : ℝ) (hrf : 0 < rf) (hrg : 0 < rg) :
    (resistor_or_opamp_noise_dominant rf rg v = some true
      ↔ v > 3 * resistor_thermal_noise (rf * rg / (rf + rg)))
    ∧ resistor_or_opamp_noise_dominant rf rg
        (3 * resistor_thermal_noise (rf * rg / (rf + rg))) = some false := by
  have hsum : rf + rg ≠ 0 := by positivity
  have hunfold : ∀ w : ℝ, resistor_or_opamp_noise_dominant rf rg w =
      (if 3 * resistor_thermal_noise (rf * rg / (rf + rg)) > w then some false
       else if w > 3 * resistor_thermal_noise (rf * rg / (rf + rg)) then some true
       else some false) := by
    intro w
    simp only [resistor_or_opamp_noise_dominant, parallel_res_of_sum_ne rf rg hsum]
  constructor
  · rw [hunfold v]
    rcases lt_trichotomy v (3 * resistor_thermal_noise (rf * rg / (rf + rg)))
      with h | h | h
    · rw [if_pos h]
      exact iff_of_false (by simp) (not_lt.mpr h.le)
    · rw [if_neg (by rw [h]; exact lt_irrefl _),
        if_neg (by rw [h]; exact lt_irrefl _)]
      exact iff_of_false (by simp) (by rw [h]; exact lt_irrefl _)
    · rw [if_neg (asymm h), if_pos h]
      exact iff_of_true rfl h
  · rw [hunfold]
    rw [if_neg (lt_irrefl _), if_neg (lt_irrefl _)]

theorem claim4_witness :
    (resistor_or_opamp_noise_dominant 1 1 5 = some true
      ↔ (5 : ℝ) > 3 * resistor_thermal_noise (1 * 1 / (1 + 1)))
    ∧ resistor_or_opamp_noise_dominant 1 1
        (3 * resistor_thermal_noise (1 * 1 / (1 + 1))) = some false :=
  claim4_dominance 1 1 5 (by norm_num) (by norm_num)

/-- Claim C2, counterexample: the source computes the thermal noise with
the Boltzmann constant `1.38e-23`, not the exact SI value
`1.380649e-23` the claim states, so at `res = 1000` the returned value
differs from the claimed formula. -/
theorem claim2_counterexample :
    resistor_thermal_noise 1000 ≠ Real.sqrt (4 * (1.380649e-23) * 289 * 1000) := by
  rw [resistor_thermal_noise_def]
  apply ne_of_lt
  apply Real.sqrt_lt_sqrt (by norm_num)
  norm_num

/-- Claim C2, amended: `resistor_thermal_noise(res)` equals
`sqrt(4 * k * T * res)` with `k = 1.38e-23 J/K` and `T = 289 K`; it is
strictly increasing on positive resistance, never negative, and its
value at `1000` ohms lies between `3.99e-9` and `4.0e-9` (approximately
`4.0e-9 V/sqrt(Hz)`). -/
theorem claim2_thermal_noise :
    (∀ r : ℝ, 0 < r →
        resistor_thermal_noise r = Real.sqrt (4 * (1.38e-23) * 289 * r))
    ∧ (∀ r s : ℝ, 0 < r → r < s →
        resistor_thermal_noise r < resistor_thermal_noise s)
    ∧ (∀ r : ℝ, 0 ≤ resistor_thermal_noise r)
    ∧ 3.99e-9 < resistor_thermal_noise 1000
    ∧ resistor_thermal_noise 1000 < 4.0e-9 := by
  refine ⟨fun r _ => resistor_thermal_noise_def r, ?_, ?_, ?_, ?_⟩
  · intro r s hr hrs
    rw [resistor_thermal_noise_def, resistor_thermal_noise_def]
    apply Real.sqrt_lt_sqrt (by nlinarith)
    nlinarith
  · intro r
    exact Real.sqrt_nonneg _
  · rw [resistor_thermal_noise_def, Real.lt_sqrt (by norm_num)]
    norm_num
  · rw [resistor_thermal_noise_def, Real.sqrt_lt' (by norm_num)]
    norm_num

theorem claim2_witness :
    resistor_thermal_noise 50 = Real.sqrt (4 * (1.38e-23) * 289 * 50)
    ∧ resistor_thermal_noise 50 < resistor_thermal_noise 51 :=
  ⟨claim2_thermal_noise.1 50 (by norm_num),
    claim2_thermal_noise.2.1 50 51 (by norm_num) (by norm_num)⟩

/-- Claim C5: with both filter arguments omitted (`None`), the total
input noise is the quadrature sum of the three noise densities scaled by
the square root of the amplifier bandwidth `1.57 * gbw / (1 + Rf/Rg)`. -/
theorem claim5_no_filter (v i rf rg gbw : ℝ)
    (hv : 0 < v) (hi : 0 < i) (hrf : 0 < rf) (hrg : 0 < rg) (hgbw : 0 < gbw) :
    total_input_noise_rms v i rf rg gbw none none =
      some (Real.sqrt (v ^ 2 + (rf * rg / (rf + rg) * i) ^ 2
          + resistor_thermal_noise (rf * rg / (rf + rg)) ^ 2)
        * Real.sqrt (1.57 * gbw / (1 + rf / rg))) := by
  rw [total_input_noise_rms_eq v i rf rg gbw none none hrf hrg,
    if_pos ⟨Or.inl rfl, Or.inl rfl⟩]
  simp only [mul_div_assoc]

theorem claim5_witness :
    total_input_noise_rms 1 1 1 1 1 none none =
      some (Real.sqrt (1 ^ 2 + (1 * 1 / (1 + 1) * 1) ^ 2
          + resistor_thermal_noise (1 * 1 / (1 + 1)) ^ 2)
        * Real.sqrt (1.57 * 1 / (1 + 1 / 1))) :=
  claim5_no_filter 1 1 1 1 1 (by norm_num) (by norm_num) (by norm_num)
    (by norm_num) (by norm_num)

/-- Claim C1: with a positive filter pair supplied, the bandwidth used
is the broadband frequency `1.57 * gbw / noise_gain` when the RC corner
`1/(2 pi R C)` exceeds it, and `1.57 * rc_corner` when the RC corner is
at most the broadband frequency. -/
theorem claim1_filter_branch (v i rf rg gbw r c : ℝ)
    (hv : 0 < v) (hi : 0 < i) (hrf : 0 < rf) (hrg : 0 < rg) (hgbw : 0 < gbw)
    (hr : 0 < r) (hc : 0 < c) :
    (1 / (2 * Real.pi * r * c) > 1.57 * (gbw / (1 + rf / rg)) →
      total_input_noise_rms v i rf rg gbw (some r) (some c) =
        some (Real.sqrt (v ^ 2 + (rf * rg / (rf + rg) * i) ^ 2
            + resistor_thermal_noise (rf * rg / (rf + rg)) ^ 2)
          * Real.sqrt (1.57 * (gbw / (1 + rf / rg)))))
    ∧ (1 / (2 * Real.pi * r * c) ≤ 1.57 * (gbw / (1 + rf / rg)) →
      total_input_noise_rms v i rf rg gbw (some r) (some c) =
        some (Real.sqrt (v ^ 2 + (rf * rg / (rf + rg) * i) ^ 2
            + resistor_thermal_noise (rf * rg / (rf + rg)) ^ 2)
          * Real.sqrt (1.57 * (1 / (2 * Real.pi * r * c))))) := by
  have hprod : 2 * Real.pi * r * c ≠ 0 := by
    have hpi := Real.pi_pos
    positivity
  have hnotfalsy : ¬ ((some r = (none : Option ℝ) ∨ some r = some 0)
      ∧ (some c = (none : Option ℝ) ∨ some c = some 0)) := by
    rintro ⟨h1 | h1, _⟩
    · exact Option.noConfusion h1
    · exact (ne_of_gt hr) (Option.some.inj h1)
  constructor
  · intro hgt
    rw [total_input_noise_rms_eq v i rf rg gbw _ _ hrf hrg, if_neg hnotfalsy]
    dsimp only
    rw [if_neg hprod, if_pos hgt]
  · intro hle
    rw [total_input_noise_rms_eq v i rf rg gbw _ _ hrf hrg, if_neg hnotfalsy]
    dsimp only
    rw [if_neg hprod, if_neg (not_lt.mpr hle)]

theorem claim1_witness :
    total_input_noise_rms 1 1 1 1 1 (some 1) (some 1) =
      some (Real.sqrt (1 ^ 2 + (1 * 1 / (1 + 1) * 1) ^ 2
          + resistor_thermal_noise (1 * 1 / (1 + 1)) ^ 2)
        * Real.sqrt (1.57 * (1 / (2 * Real.pi * 1 * 1)))) := by
  apply (claim1_filter_branch 1 1 1 1 1 1 1 (by norm_num) (by norm_num)
    (by norm_num) (by norm_num) (by norm_num) (by norm_num) (by norm_num)).2
  have hpi := Real.pi_gt_three
  rw [div_le_iff₀ (by positivity)]
  nlinarith

/-- Claim C3, counterexample: calling `total_input_noise_rms` with
`filter_res = 0` and `filter_cap = 0` does not fail at all: the Python
truthiness test `not (filter_res or filter_cap)` treats the zero pair as
"no filter" and the call returns a value. -/
theorem claim3_counterexample :
    (total_input_noise_rms 1 1 1 1 1 (some 0) (some 0)).isSome = true := by
  rw [total_input_noise_rms_eq 1 1 1 1 1 (some 0) (some 0) (by norm_num) (by norm_num),
    if_pos ⟨Or.inr rfl, Or.inr rfl⟩]
  rfl

/-- Claim C3, amended: zero filter values are not rejected eagerly.  A
zero-zero pair is silently coerced to the no-filter branch; a pair with
exactly one zero component enters the filter branch and fails there with
a division by zero in the RC-corner computation, not with an eager
domain check. -/
theorem claim3_zero_filter (v i rf rg gbw c : ℝ)
    (hrf : 0 < rf) (hrg : 0 < rg) (hc : c ≠ 0) :
    total_input_noise_rms v i rf rg gbw (some 0) (some 0) =
      total_input_noise_rms v i rf rg gbw none none
    ∧ total_input_noise_rms v i rf rg gbw (some 0) (some c) = none
    ∧ total_input_noise_rms v i rf rg gbw (some c) (some 0) = none := by
  refine ⟨?_, ?_, ?_⟩
  · rw [total_input_noise_rms_eq v i rf rg gbw _ _ hrf hrg,
      total_input_noise_rms_eq v i rf rg gbw _ _ hrf hrg,
      if_pos ⟨Or.inr rfl, Or.inr rfl⟩, if_pos ⟨Or.inl rfl, Or.inl rfl⟩]
  · have hnf : ¬ ((some (0 : ℝ) = (none : Option ℝ) ∨ some (0 : ℝ) = some 0)
        ∧ (some c = (none : Option ℝ) ∨ some c = some 0)) := by
      rintro ⟨_, h | h⟩
      · exact Option.noConfusion h
      · exact hc (Option.some.inj h)
    rw [total_input_noise_rms_eq v i rf rg gbw _ _ hrf hrg, if_neg hnf]
    dsimp only
    rw [if_pos (by ring)]
  · have hnf : ¬ ((some c = (none : Option ℝ) ∨ some c = some 0)
        ∧ (some (0 : ℝ) = (none : Option ℝ) ∨ some (0 : ℝ) = some 0)) := by
      rintro ⟨h | h, _⟩
      · exact Option.noConfusion h
      · exact hc (Option.some.inj h)
    rw [total_input_noise_rms_eq v i rf rg gbw _ _ hrf hrg, if_neg hnf]
    dsimp only
    rw [if_pos (by ring)]

theorem claim3_witness :
    total_input_noise_rms 1 1 1 1 1 (some 0) (some 0) =
      total_input_noise_rms 1 1 1 1 1 none none
    ∧ total_input_noise_rms 1 1 1 1 1 (some 0) (some 2) = none
    ∧ total_input_noise_rms 1 1 1 1 1 (some 2) (some 0) = none :=
  claim3_zero_filter 1 1 1 1 1 2 (by norm_num) (by norm_num) (by norm_num)

/-- Claim C10: the no-filter branch is taken exactly when both optional
filter arguments are absent or falsy; supplying exactly one real value
(the other `None`) enters the filter branch, where the RC-corner
arithmetic on a `None` operand fails, so the call returns no value. -/
theorem claim10_partial_filter (v i rf rg gbw r c : ℝ)
    (hrf : 0 < rf) (hrg : 0 < rg) (hr : r ≠ 0) (hc : c ≠ 0) :
    total_input_noise_rms v i rf rg gbw (some r) none = none
    ∧ total_input_noise_rms v i rf rg gbw none (some c) = none
    ∧ (∀ fr fc : Option ℝ, (fr = none ∨ fr = some 0) → (fc = none ∨ fc = some 0) →
        total_input_noise_rms v i rf rg gbw fr fc =
          total_input_noise_rms v i rf rg gbw none none) := by
  refine ⟨?_, ?_, ?_⟩
  · have hnf : ¬ ((some r = (none : Option ℝ) ∨ some r = some 0)
        ∧ ((none : Option ℝ) = none ∨ (none : Option ℝ) = some 0)) := by
      rintro ⟨h | h, _⟩
      · exact Option.noConfusion h
      · exact hr (Option.some.inj h)
    rw [total_input_noise_rms_eq v i rf rg gbw _ _ hrf hrg, if_neg hnf]
  · have hnf : ¬ (((none : Option ℝ) = none ∨ (none : Option ℝ) = some 0)
        ∧ (some c = (none : Option ℝ) ∨ some c = some 0)) := by
      rintro ⟨_, h | h⟩
      · exact Option.noConfusion h
      · exact hc (Option.some.inj h)
    rw [total_input_noise_rms_eq v i rf rg gbw _ _ hrf hrg, if_neg hnf]
  · intro fr fc h1 h2
    rw [total_input_noise_rms_eq v i rf rg gbw fr fc hrf hrg,
      total_input_noise_rms_eq v i rf rg gbw none none hrf hrg,
      if_pos ⟨h1, h2⟩, if_pos ⟨Or.inl rfl, Or.inl rfl⟩]

theorem claim10_witness :
    total_input_noise_rms 1 1 1 1 1 (some 5) none = none
    ∧ total_input_noise_rms 1 1 1 1 1 none (some 5) = none :=
  ⟨(claim10_partial_filter 1 1 1 1 1 5 5 (by norm_num) (by norm_num)
      (by norm_num) (by norm_num)).1,
    (claim10_partial_filter 1 1 1 1 1 5 5 (by norm_num) (by norm_num)
      (by norm_num) (by norm_num)).2.1⟩

/-- For positive resistances and GBW and a well-formed filter choice
(either wholly absent or a positive pair), the total input noise is the
quadrature sum scaled by the square root of one positive bandwidth that
does not depend on the two noise densities. -/
lemma total_input_noise_rms_form (rf rg gbw : ℝ) (fr fc : Option ℝ)
    (hrf : 0 < rf) (hrg : 0 < rg) (hgbw : 0 < gbw)
    (hfil : (fr = none ∧ fc = none)
      ∨ ∃ r c : ℝ, fr = some r ∧ fc = some c ∧ 0 < r ∧ 0 < c) :
    ∃ B : ℝ, 0 < B ∧ ∀ v i : ℝ,
      total_input_noise_rms v i rf rg gbw fr fc =
        some (Real.sqrt (v ^ 2 + (rf * rg / (rf + rg) * i) ^ 2
            + resistor_thermal_noise (rf * rg / (rf + rg)) ^ 2) * Real.sqrt B) := by
  have hbbpos : 0 < 1.57 * (gbw / (1 + rf / rg)) := by positivity
  rcases hfil with ⟨hfr, hfc⟩ | ⟨r, c, hfr, hfc, hr, hc⟩
  · subst hfr
    subst hfc
    refine ⟨_, hbbpos, fun v i => ?_⟩
    rw [total_input_noise_rms_eq v i rf rg gbw none none hrf hrg,
      if_pos ⟨Or.inl rfl, Or.inl rfl⟩]
  · subst hfr
    subst hfc
    have hprod : 2 * Real.pi * r * c ≠ 0 := by
      have hpi := Real.pi_pos
      positivity
    have hnf : ¬ ((some r = (none : Option ℝ) ∨ some r = some 0)
        ∧ (some c = (none : Option ℝ) ∨ some c = some 0)) := by
      rintro ⟨h | h, _⟩
      · exact Option.noConfusion h
      · exact (ne_of_gt hr) (Option.some.inj h)
    by_cases hgt : 1 / (2 * Real.pi * r * c) > 1.57 * (gbw / (1 + rf / rg))
    · refine ⟨_, hbbpos, fun v i => ?_⟩
      rw [total_input_noise_rms_eq v i rf rg gbw _ _ hrf hrg, if_neg hnf]
      dsimp only
      rw [if_neg hprod, if_pos hgt]
    · have hrcpos : 0 < 1.57 * (1 / (2 * Real.pi * r * c)) := by
        have hpi := Real.pi_pos
        positivity
      refine ⟨_, hrcpos, fun v i => ?_⟩
      rw [total_input_noise_rms_eq v i rf rg gbw _ _ hrf hrg, if_neg hnf]
      dsimp only
      rw [if_neg hprod, if_neg hgt]

/-- Claim C7: holding all other arguments fixed, the total input noise
strictly increases with the opamp voltage noise density and with the
input current noise density. -/
theorem claim7_monotone (v₁ v₂ i₁ i₂ rf rg gbw : ℝ) (fr fc : Option ℝ)
    (hrf : 0 < rf) (hrg : 0 < rg) (hgbw : 0 < gbw)
    (hfil : (fr = none ∧ fc = none)
      ∨ ∃ r c : ℝ, fr = some r ∧ fc = some c ∧ 0 < r ∧ 0 < c)
    (hv₁ : 0 < v₁) (hi₁ : 0 < i₁) :
    (v₁ < v₂ → ∃ y₁ y₂ : ℝ,
        total_input_noise_rms v₁ i₁ rf rg gbw fr fc = some y₁
        ∧ total_input_noise_rms v₂ i₁ rf rg gbw fr fc = some y₂ ∧ y₁ < y₂)
    ∧ (i₁ < i₂ → ∃ y₁ y₂ : ℝ,
        total_input_noise_rms v₁ i₁ rf rg gbw fr fc = some y₁
        ∧ total_input_noise_rms v₁ i₂ rf rg gbw fr fc = some y₂ ∧ y₁ < y₂) := by
  obtain ⟨B, hB, hform⟩ :=
    total_input_noise_rms_form rf rg gbw fr fc hrf hrg hgbw hfil
  have hreq : 0 < rf * rg / (rf + rg) := by positivity
  have hsqrtB : 0 < Real.sqrt B := Real.sqrt_pos.mpr hB
  constructor
  · intro hlt
    refine ⟨_, _, hform v₁ i₁, hform v₂ i₁, ?_⟩
    refine mul_lt_mul_of_pos_right ?_ hsqrtB
    apply Real.sqrt_lt_sqrt (by positivity)
    have hsq : v₁ ^ 2 < v₂ ^ 2 := by nlinarith
    linarith
  · intro hlt
    refine ⟨_, _, hform v₁ i₁, hform v₁ i₂, ?_⟩
    refine mul_lt_mul_of_pos_right ?_ hsqrtB
    apply Real.sqrt_lt_sqrt (by positivity)
    have h1 : rf * rg / (rf + rg) * i₁ < rf * rg / (rf + rg) * i₂ :=
      mul_lt_mul_of_pos_left hlt hreq
    have hsq : (rf * rg / (rf + rg) * i₁) ^ 2 < (rf * rg / (rf + rg) * i₂) ^ 2 :=
      pow_lt_pow_left₀ h1 (le_of_lt (mul_pos hreq hi₁)) (by norm_num)
    linarith

theorem claim7_witness :
    ∃ y₁ y₂ : ℝ, total_input_noise_rms 1 1 1 1 1 none none = some y₁
      ∧ total_input_noise_rms 2 1 1 1 1 none none = some y₂ ∧ y₁ < y₂ :=
  (claim7_monotone 1 2 1 2 1 1 1 none none (by norm_num) (by norm_num)
    (by norm_num) (Or.inl ⟨rfl, rfl⟩) (by norm_num) (by norm_num)).1 (by norm_num)

end Opampnoise
